import Mathlib

/-!
# Verification of `ts-delegate` (src/delegate.ts)

A shallow embedding of the runtime part of the `ts-delegate` library.

The JavaScript world is modelled as a heap of objects (association list from
addresses to objects).  An object has own properties (an insertion-ordered
association list from property names to values) and an optional prototype
address.  Values include primitives, object references, function values and
the arrow-closure installed by `delegateStatic`.

A JS function object is modelled as `Value.fn code isDelegated omitFirst
boundThis`: `code` indexes into a code table (method bodies are arbitrary
state transformers `Heap → this → args → Heap × result`), the two
`Option Bool` fields model the `isDelegated` / `omitFirst` properties the
`DelegateMethod` decorator sets on the function (`none` = the property is
absent, i.e. reads as `undefined`), and `boundThis` models the target of
`Function.prototype.bind`.  The arrow function
`(...args) => val.apply(candidate, val.omitFirst ? [self, ...args] : args)`
installed by `delegateStatic` is modelled by the dedicated constructor
`Value.wrapper val candidate selfA`, which captures exactly what the closure
captures.

Property reads walk the prototype chain with fuel `h.length` (an acyclic
chain in a heap of `n` objects has length at most `n`); writes update only
own properties and never change any `proto` link, so chain shapes are stable
under every heap update the library performs.

`delegate` models the source loop

```ts
for (const candidate of delegateCandidates)
  for (const key of Object.getOwnPropertyNames(Object.getPrototypeOf(candidate))) {
    if (!candidate[key].isDelegated) continue;
    self[key] = candidate[key].bind(candidate);
  }
```

with `Option Heap` as result: `none` models a thrown `TypeError`
(`candidate[key]` being `undefined` when `.isDelegated` is read, `.bind` on
a non-function, or `Object.getOwnPropertyNames(null)`).

`delegateStatic` models

```ts
for (const candidate of delegateCandidates)
  for (const key in candidate) {
    const val = candidate[key];
    if (typeof val != "function" || !val.isDelegated) continue;
    self[key] = (...args) => val.apply(candidate, val.omitFirst ? [self, ...args] : args);
  }
```

`for ... in` enumerates own and inherited enumerable properties (class-level
members compiled to plain assignments are enumerable), first-occurrence
order; it never throws, so `delegateStatic` is total.
-/

namespace TsDelegate

/-- Heap addresses. -/
abbrev Addr := Nat

/-- Index into the code table of method bodies. -/
abbrev MethodId := Nat

/-- JavaScript values, as far as the library observes them. -/
inductive Value where
  | undefined
  | bool (b : Bool)
  | num (n : Int)
  | str (s : String)
  | ref (a : Addr)
  | fn (code : MethodId) (isDel : Option Bool) (omitF : Option Bool) (boundThis : Option Addr)
  | wrapper (val : Value) (cand : Addr) (selfA : Addr)
deriving Repr, DecidableEq

/-- A JS object: own properties in insertion order, and the prototype link. -/
structure Obj where
  props : List (String × Value)
  proto : Option Addr
deriving Repr, DecidableEq

/-- The heap: addresses to objects. -/
abbrev Heap := List (Addr × Obj)

/-- First-match association lookup on the heap. -/
def findObj : Heap → Addr → Option Obj
  | [], _ => none
  | (a', o) :: rest, a => if a' = a then some o else findObj rest a

/-- Replace the object stored at an address (no-op on a missing address). -/
def setObjs : Heap → Addr → Obj → Heap
  | [], _, _ => []
  | (a', o') :: rest, a, o =>
      if a' = a then (a, o) :: setObjs rest a o else (a', o') :: setObjs rest a o

/-- Own-property lookup. -/
def getAssoc : List (String × Value) → String → Option Value
  | [], _ => none
  | (k', v) :: rest, k => if k' = k then some v else getAssoc rest k

/-- Own-property write: update in place, or append a new property. -/
def setAssoc : List (String × Value) → String → Value → List (String × Value)
  | [], k, v => [(k, v)]
  | (k', v') :: rest, k, v =>
      if k' = k then (k, v) :: rest else (k', v') :: setAssoc rest k v

/-- `target[k] = v` on the object at address `a` (models JS property assignment). -/
def setProp (h : Heap) (a : Addr) (k : String) (v : Value) : Heap :=
  match findObj h a with
  | some o => setObjs h a { o with props := setAssoc o.props k v }
  | none => h

/-- The own property `k` of the object at address `a`, if both exist. -/
def ownProp (h : Heap) (a : Addr) (k : String) : Option Value :=
  (findObj h a).bind (fun o => getAssoc o.props k)

/-- Property read along the prototype chain, with explicit fuel. -/
def getPropObj (h : Heap) : Nat → Addr → String → Value
  | 0, _, _ => .undefined
  | fuel+1, a, k =>
    match findObj h a with
    | none => .undefined
    | some o =>
      match getAssoc o.props k with
      | some v => v
      | none =>
        match o.proto with
        | some p => getPropObj h fuel p k
        | none => .undefined

/-- The JS property read `v[k]`.  Function values only expose the two mark
properties the library ever sets or reads; primitives box to wrappers with
no such properties; the arrow closure has no own properties. -/
def getProp (h : Heap) (v : Value) (k : String) : Value :=
  match v with
  | .ref a => getPropObj h h.length a k
  | .fn _ iD oF _ =>
      if k = "isDelegated" then (match iD with | some b => .bool b | none => .undefined)
      else if k = "omitFirst" then (match oF with | some b => .bool b | none => .undefined)
      else .undefined
  | _ => .undefined

/-- The addresses a prototype-chain walk starting at `a` visits. -/
def chainList (h : Heap) : Nat → Addr → List Addr
  | 0, _ => []
  | fuel+1, a =>
      a :: (match findObj h a with
            | none => []
            | some o =>
              match o.proto with
              | some p => chainList h fuel p
              | none => [])

/-- The prototype chain of the object at `a`, with the standard fuel. -/
def chain (h : Heap) (a : Addr) : List Addr := chainList h h.length a

/-- Keys visited by `for (const key in obj)`: own and inherited enumerable
properties, first occurrence wins. -/
def forInAux (h : Heap) : Nat → Option Addr → List String → List String
  | 0, _, _ => []
  | _+1, none, _ => []
  | fuel+1, some a, seen =>
    match findObj h a with
    | none => []
    | some o =>
      let ks := (o.props.map (fun e => e.1)).filter (fun k => !(seen.contains k))
      ks ++ forInAux h fuel o.proto (seen ++ ks)

/-- `for ... in` key enumeration for the object at address `a`. -/
def forInKeys (h : Heap) (a : Addr) : List String := forInAux h h.length (some a) []

/-- JS truthiness. -/
def truthy : Value → Bool
  | .undefined => false
  | .bool b => b
  | .num n => n != 0
  | .str s => s != ""
  | .ref _ => true
  | .fn _ _ _ _ => true
  | .wrapper _ _ _ => true

/-- `typeof v == "function"`. -/
def isFunctionV : Value → Bool
  | .fn _ _ _ _ => true
  | .wrapper _ _ _ => true
  | _ => false

/-- Whether a value is a function carrying a truthy `isDelegated` mark. -/
def isMarkedFn : Value → Bool
  | .fn _ iD _ _ => iD.getD false
  | _ => false

/-- The source expression `candidate[key].isDelegated`, as a truthiness test:
`none` models the `TypeError` thrown when `candidate[key]` is `undefined`. -/
def isDelegatedCheck (h : Heap) (v : Value) : Option Bool :=
  match v with
  | .undefined => none
  | _ => some (truthy (getProp h v ("isDelegated")))

/-- `f.bind(candidate)`: a fresh bound function without the mark properties
(`bind` does not copy own properties); binding an already-bound function
keeps the original bound `this`; `.bind` on a non-function throws (`none`).
Binding the arrow closure yields a function that still ignores its receiver,
observationally the closure itself. -/
def bindFn : Value → Addr → Option Value
  | .fn c _ _ none, a => some (.fn c none none (some a))
  | .fn c _ _ (some b), _ => some (.fn c none none (some b))
  | .wrapper v c s, _ => some (.wrapper v c s)
  | _, _ => none

/-- The code table: a method body takes the heap, the `this` value and the
argument list, and returns the updated heap and the result. -/
abbrev Code := MethodId → Heap → Value → List Value → Heap × Value

/-- Calling a value: a plain function uses the supplied receiver, a bound
function uses its bound `this`, the `delegateStatic` arrow closure evaluates
`val.apply(candidate, val.omitFirst ? [self, ...args] : args)` and ignores
its receiver entirely; calling a non-function throws (`none`). -/
def callValue (C : Code) (h : Heap) : Value → Value → List Value → Option (Heap × Value)
  | .fn code _ _ none, thisV, args => some (C code h thisV args)
  | .fn code _ _ (some a), _, args => some (C code h (.ref a) args)
  | .wrapper val cand selfA, _, args =>
      callValue C h val (.ref cand)
        (if truthy (getProp h val ("omitFirst")) then .ref selfA :: args else args)
  | _, _, _ => none

/-- The inner loop of `delegate`, over the snapshot of
`Object.getOwnPropertyNames(Object.getPrototypeOf(candidate))`. -/
def delegateKeys (selfA cand : Addr) : Heap → List String → Option Heap
  | h, [] => some h
  | h, k :: ks =>
    match isDelegatedCheck h (getProp h (.ref cand) k) with
    | none => none
    | some false => delegateKeys selfA cand h ks
    | some true =>
      match bindFn (getProp h (.ref cand) k) cand with
      | none => none
      | some bv => delegateKeys selfA cand (setProp h selfA k bv) ks

/-- `delegate(self, delegateCandidates)` from src/delegate.ts.  `none`
models a thrown `TypeError`; a candidate without a prototype object makes
`Object.getOwnPropertyNames(null)` throw. -/
def delegate (h : Heap) (selfA : Addr) : List Addr → Option Heap
  | [] => some h
  | c :: cs =>
    match findObj h c with
    | none => none
    | some o =>
      match o.proto with
      | none => none
      | some p =>
        match findObj h p with
        | none => none
        | some po =>
          match delegateKeys selfA c h (po.props.map (fun e => e.1)) with
          | none => none
          | some h' => delegate h' selfA cs

/-- The inner loop of `delegateStatic`. -/
def delegateStaticKeys (selfA cand : Addr) : Heap → List String → Heap
  | h, [] => h
  | h, k :: ks =>
    let v := getProp h (.ref cand) k
    if isFunctionV v && truthy (getProp h v ("isDelegated")) then
      delegateStaticKeys selfA cand (setProp h selfA k (.wrapper v cand selfA)) ks
    else
      delegateStaticKeys selfA cand h ks

/-- `delegateStatic(self, delegateCandidates)` from src/delegate.ts. -/
def delegateStatic (h : Heap) (selfA : Addr) : List Addr → Heap
  | [] => h
  | c :: cs => delegateStatic (delegateStaticKeys selfA c h (forInKeys h c)) selfA cs

/-- The `DelegateMethod(omitFirst)` decorator body: it sets
`descriptor.value.isDelegated = true` and `descriptor.value.omitFirst =
omitFirst` on the method's function value. -/
def DelegateMethod (omitF : Bool) : Value → Value
  | .fn c _ _ b => .fn c (some true) (some omitF) b
  | v => v

/-- Modelled from the spec: the field-delegation mark `@DelegateField(allowGet,
allowSet)` (spec §4.1).  `DelegateField` and the field accessor installation
are documented in the repository's README but absent from src/. -/
structure FieldMark where
  allowGet : Bool := true
  allowSet : Bool := true
deriving Repr, DecidableEq

/-- Modelled from the spec (§4.2): the getter a binder installs on the
recipient for a donor field marked with a `FieldMark` — reading returns the
donor's current field value, or `undefined` if `allowGet` is false. -/
def fieldRead (h : Heap) (mark : FieldMark) (donor : Addr) (k : String) : Value :=
  if mark.allowGet then getProp h (.ref donor) k else .undefined

/-- Modelled from the spec (§4.2): the setter a binder installs on the
recipient for a donor field marked with a `FieldMark` — writing assigns the
donor's field directly, or silently no-ops if `allowSet` is false. -/
def fieldWrite (h : Heap) (mark : FieldMark) (donor : Addr) (k : String) (v : Value) : Heap :=
  if mark.allowSet then setProp h donor k v else h

/-! ## Concrete test fixtures (used by witness and counterexample theorems) -/

/-- A prototype whose only member `p` has the value `undefined`. -/
def cxProto : Obj := { props := [("p", .undefined)], proto := none }

/-- Donor (address 1) inheriting the `undefined`-valued member, recipient at 2. -/
def cxHeap : Heap := [(0, cxProto), (1, { props := [], proto := some 0 }), (2, { props := [], proto := none })]

/-- A superclass (address 0) carrying a marked static method `m`. -/
def c7Super : Obj := { props := [("m", .fn 5 (some true) (some false) none)], proto := none }

/-- A subclass (address 1) with no own members, inheriting from `c7Super`. -/
def c7Sub : Obj := { props := [], proto := some 0 }

def c7Heap : Heap := [(0, c7Super), (1, c7Sub), (2, { props := [], proto := none })]

/-- Witness fixtures: a donor class prototype (address 0) with one marked
instance method, a donor instance (address 1), a static donor class
(address 3) with one marked static method, and a recipient (address 2). -/
def wProto : Obj := { props := [("m", .fn 7 (some true) none none)], proto := none }

def wDonor : Obj := { props := [], proto := some 0 }

def wRecip : Obj := { props := [], proto := none }

def wHeap : Heap := [(0, wProto), (1, wDonor), (2, wRecip)]

def wHeap2 : Heap :=
  [(0, wProto), (1, wDonor),
   (2, { props := [("m", .fn 7 none none (some 1))], proto := none })]

def wCode : Code := fun code hh _ args => (hh, .num (code + args.length))

def wsClass : Obj := { props := [("chg", .fn 3 (some true) (some true) none)], proto := none }

def wsHeap : Heap := [(3, wsClass), (2, wRecip)]

def wsHeap2 : Heap :=
  [(3, wsClass),
   (2, { props := [("chg", .wrapper (.fn 3 (some true) (some true) none) 3 2)], proto := none })]

def w9Grand : Obj := { props := [("g", .fn 9 (some true) none none)], proto := none }

def w9Proto : Obj := { props := [], proto := some 4 }

def w9Heap : Heap := [(4, w9Grand), (0, w9Proto), (1, wDonor), (2, wRecip)]

def w4Proto1 : Obj := { props := [("m", .fn 11 (some true) none none)], proto := none }

def w4Donor1 : Obj := { props := [], proto := some 5 }

def w4Proto2 : Obj := { props := [("m", .fn 12 (some true) none none)], proto := none }

def w4Donor2 : Obj := { props := [], proto := some 7 }

def w4Heap : Heap :=
  [(5, w4Proto1), (6, w4Donor1), (7, w4Proto2), (8, w4Donor2), (2, wRecip)]

def w4Heap2 : Heap :=
  [(5, w4Proto1), (6, w4Donor1), (7, w4Proto2), (8, w4Donor2),
   (2, { props := [("m", .fn 12 none none (some 8))], proto := none })]

def wAll : Heap := [(0, wProto), (1, wDonor), (3, wsClass), (2, wRecip)]

def wAll2 : Heap :=
  [(0, wProto), (1, wDonor), (3, wsClass),
   (2, { props := [("m", .fn 7 none none (some 1))], proto := none })]

def wAll3 : Heap :=
  [(0, wProto), (1, wDonor), (3, wsClass),
   (2, { props := [("m", .fn 7 none none (some 1)),
                   ("chg", .wrapper (.fn 3 (some true) (some true) none) 3 2)],
         proto := none })]

def w5Proto : Obj :=
  { props := [("m", .fn 7 (some true) none none), ("plain", .fn 8 none none none)],
    proto := none }

def w5Heap : Heap := [(0, w5Proto), (1, wDonor), (2, wRecip)]

def w5Heap2 : Heap :=
  [(0, w5Proto), (1, wDonor),
   (2, { props := [("m", .fn 7 none none (some 1))], proto := none })]

def w6Proto : Obj := { props := [("quiet", .fn 4 none none none)], proto := none }

def w6Heap : Heap := [(0, w6Proto), (1, wDonor), (2, wRecip)]

def c7Heap2 : Heap :=
  [(0, c7Super), (1, c7Sub),
   (2, { props := [("m", .wrapper (.fn 5 (some true) (some false) none) 1 2)],
         proto := none })]

/-! ## Basic lemmas about heap and property updates -/

theorem length_setObjs (l : Heap) (a : Addr) (o : Obj) :
    (setObjs l a o).length = l.length := by
  induction l with
  | nil => rfl
  | cons x rest ih =>
    obtain ⟨a', o'⟩ := x
    by_cases hx : a' = a <;> simp [setObjs, hx, ih]

theorem findObj_setObjs_ne (l : Heap) (a b : Addr) (o : Obj) (hne : b ≠ a) :
    findObj (setObjs l a o) b = findObj l b := by
  induction l with
  | nil => rfl
  | cons x rest ih =>
    obtain ⟨a', o'⟩ := x
    by_cases hx : a' = a
    · subst hx
      have hab : a' ≠ b := fun hh => hne hh.symm
      simp [setObjs, findObj, hab, ih]
    · by_cases hb : a' = b
      · subst hb
        simp [setObjs, findObj, hx]
      · simp [setObjs, findObj, hx, hb, ih]

theorem findObj_setObjs_eq (l : Heap) (a : Addr) (o o₀ : Obj)
    (hfound : findObj l a = some o₀) :
    findObj (setObjs l a o) a = some o := by
  induction l with
  | nil => simp [findObj] at hfound
  | cons x rest ih =>
    obtain ⟨a', o'⟩ := x
    by_cases hx : a' = a
    · simp [setObjs, findObj, hx]
    · simp [setObjs, findObj, hx] at hfound ⊢
      exact ih hfound

theorem length_setProp (h : Heap) (a : Addr) (k : String) (v : Value) :
    (setProp h a k v).length = h.length := by
  unfold setProp
  cases hf : findObj h a with
  | none => rfl
  | some o => exact length_setObjs h a _

theorem findObj_setProp_ne (h : Heap) (a b : Addr) (k : String) (v : Value) (hne : b ≠ a) :
    findObj (setProp h a k v) b = findObj h b := by
  unfold setProp
  cases hf : findObj h a with
  | none => rfl
  | some o => exact findObj_setObjs_ne h a b _ hne

theorem findObj_setProp_eq (h : Heap) (a : Addr) (k : String) (v : Value) (o : Obj)
    (hf : findObj h a = some o) :
    findObj (setProp h a k v) a = some { o with props := setAssoc o.props k v } := by
  unfold setProp
  rw [hf]
  exact findObj_setObjs_eq h a _ o hf

theorem findObj_setProp_isSome (h : Heap) (a : Addr) (k : String) (v : Value) :
    (findObj (setProp h a k v) a).isSome = (findObj h a).isSome := by
  cases hf : findObj h a with
  | none => simp [setProp, hf]
  | some o => rw [findObj_setProp_eq h a k v o hf]; simp [hf]

theorem getAssoc_setAssoc_eq (l : List (String × Value)) (k : String) (v : Value) :
    getAssoc (setAssoc l k v) k = some v := by
  induction l with
  | nil => simp [setAssoc, getAssoc]
  | cons x rest ih =>
    obtain ⟨k', v'⟩ := x
    by_cases hk : k' = k <;> simp [setAssoc, getAssoc, hk, ih]

theorem getAssoc_setAssoc_ne (l : List (String × Value)) (k k' : String) (v : Value)
    (hne : k' ≠ k) :
    getAssoc (setAssoc l k v) k' = getAssoc l k' := by
  induction l with
  | nil =>
    have hk : k ≠ k' := fun hh => hne hh.symm
    simp [setAssoc, getAssoc, hk]
  | cons x rest ih =>
    obtain ⟨k₀, v₀⟩ := x
    by_cases hk : k₀ = k
    · subst hk
      have hk' : k₀ ≠ k' := fun hh => hne hh.symm
      simp [setAssoc, getAssoc, hk']
    · by_cases hk' : k₀ = k'
      · subst hk'
        simp [setAssoc, getAssoc, hk]
      · simp [setAssoc, getAssoc, hk, hk', ih]

theorem ownProp_setProp_eq (h : Heap) (a : Addr) (k : String) (v : Value) (o : Obj)
    (hf : findObj h a = some o) :
    ownProp (setProp h a k v) a k = some v := by
  unfold ownProp
  rw [findObj_setProp_eq h a k v o hf]
  simp [getAssoc_setAssoc_eq]

theorem ownProp_setProp_ne_key (h : Heap) (a : Addr) (k k' : String) (v : Value)
    (hne : k' ≠ k) :
    ownProp (setProp h a k v) a k' = ownProp h a k' := by
  unfold ownProp
  cases hf : findObj h a with
  | none => simp [setProp, hf]
  | some o =>
    rw [findObj_setProp_eq h a k v o hf]
    simp [getAssoc_setAssoc_ne _ _ _ _ hne]

theorem ownProp_setProp_ne_addr (h : Heap) (a b : Addr) (k k' : String) (v : Value)
    (hne : b ≠ a) :
    ownProp (setProp h a k v) b k' = ownProp h b k' := by
  unfold ownProp
  rw [findObj_setProp_ne h a b k v hne]

/-! ## Writes performed by the binders touch only the recipient -/

/-- Both binders only ever assign properties of the recipient, so every heap
they produce agrees with the starting heap away from the recipient's
address, keeps the heap's size, and keeps the recipient present or absent. -/
def AgreeExcept (h h' : Heap) (r : Addr) : Prop :=
  h'.length = h.length ∧ (findObj h' r).isSome = (findObj h r).isSome ∧
    ∀ b, b ≠ r → findObj h' b = findObj h b

theorem AgreeExcept.refl (h : Heap) (r : Addr) : AgreeExcept h h r :=
  ⟨Eq.refl _, Eq.refl _, fun _ _ => Eq.refl _⟩

theorem AgreeExcept.trans {h₁ h₂ h₃ : Heap} {r : Addr}
    (hab : AgreeExcept h₁ h₂ r) (hbc : AgreeExcept h₂ h₃ r) : AgreeExcept h₁ h₃ r :=
  ⟨hbc.1.trans hab.1, hbc.2.1.trans hab.2.1,
   fun b hb => (hbc.2.2 b hb).trans (hab.2.2 b hb)⟩

theorem AgreeExcept.setProp (h : Heap) (r : Addr) (k : String) (v : Value) :
    AgreeExcept h (setProp h r k v) r :=
  ⟨length_setProp h r k v, findObj_setProp_isSome h r k v,
   fun b hb => findObj_setProp_ne h r b k v hb⟩

/-! ## Stability of property reads under writes to the recipient -/

/-- A prototype-chain read that never visits `r` is unchanged between heaps
that agree away from `r`. -/
theorem getPropObj_congr {h h' : Heap} {r : Addr}
    (hag : ∀ b, b ≠ r → findObj h' b = findObj h b) :
    ∀ fuel a k, r ∉ chainList h fuel a → getPropObj h' fuel a k = getPropObj h fuel a k := by
  intro fuel
  induction fuel with
  | zero => intro a k _; rfl
  | succ n ih =>
    intro a k hnm
    have har : a ≠ r := by
      intro hh
      exact hnm (hh ▸ List.mem_cons_self a _)
    have hfind : findObj h' a = findObj h a := hag a har
    cases hf : findObj h a with
    | none => simp only [getPropObj, hfind, hf]
    | some o =>
      cases hk : getAssoc o.props k with
      | some v => simp only [getPropObj, hfind, hf, hk]
      | none =>
        cases hp : o.proto with
        | none => simp only [getPropObj, hfind, hf, hk, hp]
        | some p =>
          simp only [getPropObj, hfind, hf, hk, hp]
          apply ih
          intro hmem
          apply hnm
          simp only [chainList, hf, hp]
          exact List.mem_cons_of_mem _ hmem

/-- Heap-level read stability: reading any property of an object whose
prototype chain avoids `r` is unchanged by the binders' writes. -/
theorem getProp_ref_congr {h h' : Heap} {r : Addr} (hag : AgreeExcept h h' r)
    (a : Addr) (k : String) (hchain : r ∉ chain h a) :
    getProp h' (.ref a) k = getProp h (.ref a) k := by
  show getPropObj h' h'.length a k = getPropObj h h.length a k
  rw [hag.1]
  exact getPropObj_congr hag.2.2 h.length a k hchain

theorem length_pos_of_findObj {h : Heap} {a : Addr} {o : Obj}
    (hf : findObj h a = some o) : 1 ≤ h.length := by
  cases h with
  | nil => simp [findObj] at hf
  | cons x rest => simp

theorem length_two_of_findObj_two {h : Heap} {a b : Addr} {oa ob : Obj}
    (hfa : findObj h a = some oa) (hfb : findObj h b = some ob) (hab : a ≠ b) :
    2 ≤ h.length := by
  induction h with
  | nil => simp [findObj] at hfa
  | cons x rest ih =>
    obtain ⟨a', o'⟩ := x
    by_cases hxa : a' = a
    · have hxb : a' ≠ b := hxa ▸ hab
      simp only [findObj, hxb, if_false] at hfb
      have := length_pos_of_findObj hfb
      simp only [List.length_cons]
      omega
    · by_cases hxb : a' = b
      · simp only [findObj, hxa, if_false] at hfa
        have := length_pos_of_findObj hfa
        simp only [List.length_cons]
        omega
      · simp only [findObj, hxa, hxb, if_false] at hfa hfb
        have := ih hfa hfb
        simp only [List.length_cons]
        omega

theorem mem_chain_self {h : Heap} {a : Addr} (hlen : 1 ≤ h.length) :
    a ∈ chain h a := by
  unfold chain
  obtain ⟨n, hn⟩ : ∃ n, h.length = n + 1 := ⟨h.length - 1, by omega⟩
  rw [hn]
  exact List.mem_cons_self _ _

theorem mem_chain_proto {h : Heap} {a p : Addr} {o : Obj}
    (hf : findObj h a = some o) (hp : o.proto = some p) (hlen : 2 ≤ h.length) :
    p ∈ chain h a := by
  unfold chain
  obtain ⟨n, hn⟩ : ∃ n, h.length = n + 2 := ⟨h.length - 2, by omega⟩
  rw [hn]
  simp only [chainList, hf, hp]
  exact List.mem_cons_of_mem _ (List.mem_cons_self _ _)

/-- Locating a property found among the own properties. -/
theorem getPropObj_found_own {h : Heap} {a : Addr} {o : Obj} {k : String} {v : Value}
    (hf : findObj h a = some o) (hk : getAssoc o.props k = some v) (n : Nat) :
    getPropObj h (n+1) a k = v := by
  simp only [getPropObj, hf, hk]

theorem getProp_own {h : Heap} {a : Addr} {o : Obj} {k : String} {v : Value}
    (hf : findObj h a = some o) (hk : getAssoc o.props k = some v) :
    getProp h (.ref a) k = v := by
  show getPropObj h h.length a k = v
  obtain ⟨n, hn⟩ : ∃ n, h.length = n + 1 :=
    ⟨h.length - 1, by have := length_pos_of_findObj hf; omega⟩
  rw [hn]
  exact getPropObj_found_own hf hk n

theorem ownProp_getProp {h : Heap} {a : Addr} {k : String} {v : Value}
    (hv : ownProp h a k = some v) : getProp h (.ref a) k = v := by
  unfold ownProp at hv
  cases hf : findObj h a with
  | none =>
    rw [hf] at hv
    exact absurd hv (by simp)
  | some o =>
    rw [hf] at hv
    exact getProp_own hf hv

/-- A property name absent from an association list does not occur among its
keys, and conversely. -/
theorem getAssoc_eq_none_iff {l : List (String × Value)} {k : String} :
    getAssoc l k = none ↔ k ∉ l.map (fun e => e.1) := by
  induction l with
  | nil => simp [getAssoc]
  | cons x rest ih =>
    obtain ⟨k', v'⟩ := x
    by_cases hk : k' = k
    · subst hk
      simp [getAssoc]
    · have hk2 : k ≠ k' := fun hh => hk hh.symm
      have hstep : getAssoc ((k', v') :: rest) k = getAssoc rest k := by
        simp [getAssoc, hk]
      rw [hstep, ih]
      simp only [List.map_cons, List.mem_cons]
      constructor
      · intro hnot hor
        rcases hor with hh | hh
        · exact hk2 hh
        · exact hnot hh
      · intro hnot hmem
        exact hnot (Or.inr hmem)

/-! ## Frame and installation lemmas for the two inner loops -/

theorem delegateKeys_agree {selfA cand : Addr} :
    ∀ {ks : List String} {h₁ h₂ : Heap},
      delegateKeys selfA cand h₁ ks = some h₂ → AgreeExcept h₁ h₂ selfA := by
  intro ks
  induction ks with
  | nil =>
    intro h₁ h₂ hrun
    rw [delegateKeys] at hrun
    cases hrun
    exact AgreeExcept.refl _ _
  | cons k ks ih =>
    intro h₁ h₂ hrun
    rw [delegateKeys] at hrun
    cases hchk : isDelegatedCheck h₁ (getProp h₁ (.ref cand) k) with
    | none => rw [hchk] at hrun; cases hrun
    | some b =>
      rw [hchk] at hrun
      cases b with
      | false => exact ih hrun
      | true =>
        cases hb : bindFn (getProp h₁ (.ref cand) k) cand with
        | none => rw [hb] at hrun; cases hrun
        | some bv =>
          rw [hb] at hrun
          exact (AgreeExcept.setProp h₁ selfA k bv).trans (ih hrun)

theorem delegateKeys_ownProp_not_mem {selfA cand : Addr} {k : String} :
    ∀ {ks : List String} {h₁ h₂ : Heap}, k ∉ ks →
      delegateKeys selfA cand h₁ ks = some h₂ → ownProp h₂ selfA k = ownProp h₁ selfA k := by
  intro ks
  induction ks with
  | nil =>
    intro h₁ h₂ _ hrun
    rw [delegateKeys] at hrun
    cases hrun
    rfl
  | cons k' ks ih =>
    intro h₁ h₂ hmem hrun
    have hk' : k ≠ k' := fun hh => hmem (hh ▸ List.mem_cons_self _ _)
    have hks : k ∉ ks := fun hh => hmem (List.mem_cons_of_mem _ hh)
    rw [delegateKeys] at hrun
    cases hchk : isDelegatedCheck h₁ (getProp h₁ (.ref cand) k') with
    | none => rw [hchk] at hrun; cases hrun
    | some b =>
      rw [hchk] at hrun
      cases b with
      | false => exact ih hks hrun
      | true =>
        cases hb : bindFn (getProp h₁ (.ref cand) k') cand with
        | none => rw [hb] at hrun; cases hrun
        | some bv =>
          rw [hb] at hrun
          rw [ih hks hrun]
          exact ownProp_setProp_ne_key h₁ selfA k' k bv hk'

/-- Processing a key list that contains a marked, unbound donor method `m`
installs `m` on the recipient, bound to the donor, no matter what the other
keys do. -/
theorem delegateKeys_install {h : Heap} {r cand : Addr} {m : String}
    {code : MethodId} {oF : Option Bool}
    (hchain : r ∉ chain h cand)
    (hread : getProp h (.ref cand) m = .fn code (some true) oF none)
    (hrs : (findObj h r).isSome) :
    ∀ {ks : List String} {h₁ h₂ : Heap}, AgreeExcept h h₁ r →
      delegateKeys r cand h₁ ks = some h₂ → m ∈ ks →
      ownProp h₂ r m = some (.fn code none none (some cand)) := by
  intro ks
  induction ks with
  | nil => intro h₁ h₂ _ _ hmem; cases hmem
  | cons k ks ih =>
    intro h₁ h₂ hag hrun hmem
    rw [delegateKeys] at hrun
    by_cases hk : k = m
    · subst hk
      have hstable : getProp h₁ (.ref cand) k = .fn code (some true) oF none := by
        rw [getProp_ref_congr hag cand k hchain, hread]
      rw [hstable] at hrun
      have hchk : isDelegatedCheck h₁ (.fn code (some true) oF none) = some true := by
        simp [isDelegatedCheck, getProp, truthy]
      rw [hchk] at hrun
      have hb : bindFn (Value.fn code (some true) oF none) cand
          = some (.fn code none none (some cand)) := rfl
      rw [hb] at hrun
      by_cases hmem' : k ∈ ks
      · exact ih (hag.trans (AgreeExcept.setProp h₁ r k _)) hrun hmem'
      · rw [delegateKeys_ownProp_not_mem hmem' hrun]
        have hsome : (findObj h₁ r).isSome := by rw [hag.2.1]; exact hrs
        obtain ⟨o₁, ho₁⟩ := Option.isSome_iff_exists.1 hsome
        exact ownProp_setProp_eq h₁ r k _ o₁ ho₁
    · have hmem' : m ∈ ks := by
        cases hmem with
        | head => exact absurd rfl hk
        | tail _ hh => exact hh
      cases hchk : isDelegatedCheck h₁ (getProp h₁ (.ref cand) k) with
      | none => rw [hchk] at hrun; cases hrun
      | some b =>
        rw [hchk] at hrun
        cases b with
        | false => exact ih hag hrun hmem'
        | true =>
          cases hb : bindFn (getProp h₁ (.ref cand) k) cand with
          | none => rw [hb] at hrun; cases hrun
          | some bv =>
            rw [hb] at hrun
            exact ih (hag.trans (AgreeExcept.setProp h₁ r k bv)) hrun hmem'

theorem delegateStaticKeys_agree {selfA cand : Addr} :
    ∀ {ks : List String} {h₁ : Heap},
      AgreeExcept h₁ (delegateStaticKeys selfA cand h₁ ks) selfA := by
  intro ks
  induction ks with
  | nil => intro h₁; exact AgreeExcept.refl _ _
  | cons k ks ih =>
    intro h₁
    rw [delegateStaticKeys]
    by_cases hc : isFunctionV (getProp h₁ (.ref cand) k)
        && truthy (getProp h₁ (getProp h₁ (.ref cand) k) "isDelegated")
    · simp only [hc, if_true]
      exact (AgreeExcept.setProp h₁ selfA k _).trans ih
    · simp only [hc, if_false]
      exact ih

theorem delegateStaticKeys_ownProp_not_mem {selfA cand : Addr} {k : String} :
    ∀ {ks : List String} {h₁ : Heap}, k ∉ ks →
      ownProp (delegateStaticKeys selfA cand h₁ ks) selfA k = ownProp h₁ selfA k := by
  intro ks
  induction ks with
  | nil => intro h₁ _; rfl
  | cons k' ks ih =>
    intro h₁ hmem
    have hk' : k ≠ k' := fun hh => hmem (hh ▸ List.mem_cons_self _ _)
    have hks : k ∉ ks := fun hh => hmem (List.mem_cons_of_mem _ hh)
    rw [delegateStaticKeys]
    by_cases hc : isFunctionV (getProp h₁ (.ref cand) k')
        && truthy (getProp h₁ (getProp h₁ (.ref cand) k') "isDelegated")
    · simp only [hc, if_true]
      rw [ih hks]
      exact ownProp_setProp_ne_key h₁ selfA k' k _ hk'
    · simp only [hc, if_false]
      exact ih hks

/-- Processing a key list that contains a marked donor static method `m`
installs the arrow-closure wrapper for it on the recipient. -/
theorem delegateStaticKeys_install {h : Heap} {r cand : Addr} {m : String}
    {code : MethodId} {oF : Option Bool}
    (hchain : r ∉ chain h cand)
    (hread : getProp h (.ref cand) m = .fn code (some true) oF none)
    (hrs : (findObj h r).isSome) :
    ∀ {ks : List String} {h₁ : Heap}, AgreeExcept h h₁ r → m ∈ ks →
      ownProp (delegateStaticKeys r cand h₁ ks) r m
        = some (.wrapper (.fn code (some true) oF none) cand r) := by
  intro ks
  induction ks with
  | nil => intro h₁ _ hmem; cases hmem
  | cons k ks ih =>
    intro h₁ hag hmem
    rw [delegateStaticKeys]
    by_cases hk : k = m
    · subst hk
      have hstable : getProp h₁ (.ref cand) k = .fn code (some true) oF none := by
        rw [getProp_ref_congr hag cand k hchain, hread]
      rw [hstable]
      have hc : (isFunctionV (Value.fn code (some true) oF none)
          && truthy (getProp h₁ (Value.fn code (some true) oF none) "isDelegated")) = true := by
        simp [isFunctionV, getProp, truthy]
      simp only [hc, if_true]
      by_cases hmem' : k ∈ ks
      · exact ih (hag.trans (AgreeExcept.setProp h₁ r k _)) hmem'
      · rw [delegateStaticKeys_ownProp_not_mem hmem']
        have hsome : (findObj h₁ r).isSome := by rw [hag.2.1]; exact hrs
        obtain ⟨o₁, ho₁⟩ := Option.isSome_iff_exists.1 hsome
        exact ownProp_setProp_eq h₁ r k _ o₁ ho₁
    · have hmem' : m ∈ ks := by
        cases hmem with
        | head => exact absurd rfl hk
        | tail _ hh => exact hh
      by_cases hc : isFunctionV (getProp h₁ (.ref cand) k)
          && truthy (getProp h₁ (getProp h₁ (.ref cand) k) "isDelegated")
      · simp only [hc, if_true]
        exact ih (hag.trans (AgreeExcept.setProp h₁ r k _)) hmem'
      · simp only [hc, if_false]
        exact ih hag hmem'

/-! ## List-level frame lemmas -/

theorem delegate_agree {r : Addr} :
    ∀ {cs : List Addr} {h₁ h₂ : Heap},
      delegate h₁ r cs = some h₂ → AgreeExcept h₁ h₂ r := by
  intro cs
  induction cs with
  | nil =>
    intro h₁ h₂ hrun
    rw [delegate] at hrun
    cases hrun
    exact AgreeExcept.refl _ _
  | cons c cs ih =>
    intro h₁ h₂ hrun
    rw [delegate] at hrun
    cases hfc : findObj h₁ c with
    | none => rw [hfc] at hrun; cases hrun
    | some o =>
      simp only [hfc] at hrun
      cases hpr : o.proto with
      | none => simp only [hpr] at hrun; cases hrun
      | some p =>
        simp only [hpr] at hrun
        cases hfp : findObj h₁ p with
        | none => simp only [hfp] at hrun; cases hrun
        | some po =>
          simp only [hfp] at hrun
          cases hkeys : delegateKeys r c h₁ (po.props.map (fun e => e.1)) with
          | none => simp only [hkeys] at hrun; cases hrun
          | some h' =>
            simp only [hkeys] at hrun
            exact (delegateKeys_agree hkeys).trans (ih hrun)

theorem delegateStatic_agree {r : Addr} :
    ∀ {cs : List Addr} {h₁ : Heap}, AgreeExcept h₁ (delegateStatic h₁ r cs) r := by
  intro cs
  induction cs with
  | nil => intro h₁; exact AgreeExcept.refl _ _
  | cons c cs ih =>
    intro h₁
    rw [delegateStatic]
    exact delegateStaticKeys_agree.trans ih

/-! ## Claim theorems -/

/-- C1: for a donor instance `d` whose marked method `m` is enumerated from
`d`'s immediate prototype and whose lookup `d[m]` yields a marked, unbound
function, after `delegate(r, [d])` the call `r.m(A)` — with any call-site
receiver — produces the same result and performs the same heap mutation
(in particular the same mutation of `d`'s own state) as the direct call
`d.m(A)` with `this` bound to `d`; both run the method's body with `this =
d` on the post-delegation heap. -/
theorem C1_instance_delegation_preserves_call (C : Code) (h h₂ : Heap) (r d p : Addr)
    (dobj po : Obj) (m : String) (code : MethodId) (oF : Option Bool)
    (hd : findObj h d = some dobj) (hproto : dobj.proto = some p)
    (hp : findObj h p = some po)
    (hmem : m ∈ po.props.map (fun e => e.1))
    (hread : getProp h (.ref d) m = .fn code (some true) oF none)
    (hrs : (findObj h r).isSome)
    (hchain : r ∉ chain h d)
    (hdel : delegate h r [d] = some h₂)
    (recv : Value) (args : List Value) :
    callValue C h₂ (getProp h₂ (.ref r) m) recv args
      = callValue C h₂ (getProp h₂ (.ref d) m) (.ref d) args
    ∧ callValue C h₂ (getProp h₂ (.ref r) m) recv args
      = some (C code h₂ (.ref d) args) := by
  rw [delegate] at hdel
  simp only [hd, hproto, hp] at hdel
  cases hkeys : delegateKeys r d h (po.props.map (fun e => e.1)) with
  | none => simp only [hkeys] at hdel; cases hdel
  | some h' =>
    simp only [hkeys, delegate] at hdel
    injection hdel with hdel
    subst hdel
    have hag : AgreeExcept h h' r := delegateKeys_agree hkeys
    have hOwn : ownProp h' r m = some (.fn code none none (some d)) :=
      delegateKeys_install hchain hread hrs (AgreeExcept.refl h r) hkeys hmem
    have hgr : getProp h' (.ref r) m = .fn code none none (some d) := ownProp_getProp hOwn
    have hgd : getProp h' (.ref d) m = .fn code (some true) oF none := by
      rw [getProp_ref_congr hag d m hchain, hread]
    rw [hgr, hgd]
    exact ⟨rfl, rfl⟩

theorem C1_instance_delegation_preserves_call_witness :
    callValue wCode wHeap2 (getProp wHeap2 (.ref 2) "m") (.ref 2) [.num 4]
      = callValue wCode wHeap2 (getProp wHeap2 (.ref 1) "m") (.ref 1) [.num 4]
    ∧ callValue wCode wHeap2 (getProp wHeap2 (.ref 2) "m") (.ref 2) [.num 4]
      = some (wCode 7 wHeap2 (.ref 1) [.num 4]) :=
  C1_instance_delegation_preserves_call wCode wHeap wHeap2 2 1 0 wDonor wProto ("m") 7 none
    (by decide) (by decide) (by decide) (by decide) (by decide) (by decide) (by decide)
    (by decide) (.ref 2) [.num 4]

/-- C2: for a donor class `D` whose marked static method `m` is enumerated
by `for...in` and reads as a marked, unbound function, after
`delegateStatic(r, [D])` the call `r.m(a1, …, an)` — with any call-site
receiver — invokes `D.m(a1, …, an)` when the mark's `omitFirst` is falsy
(the recipient is never substituted), and invokes `D.m(r, a1, …, an)` when
`omitFirst` is true; in both cases it agrees with the direct donor call on
the installed argument list and runs the body with `this = D`. -/
theorem C2_static_delegation_call (C : Code) (h h₂ : Heap) (r D : Addr) (m : String)
    (code : MethodId) (oF : Option Bool)
    (hmem : m ∈ forInKeys h D)
    (hread : getProp h (.ref D) m = .fn code (some true) oF none)
    (hrs : (findObj h r).isSome)
    (hchain : r ∉ chain h D)
    (hdel : delegateStatic h r [D] = h₂)
    (recv : Value) (args : List Value) :
    callValue C h₂ (getProp h₂ (.ref r) m) recv args
      = callValue C h₂ (getProp h₂ (.ref D) m) (.ref D)
          (if oF.getD false then .ref r :: args else args)
    ∧ callValue C h₂ (getProp h₂ (.ref r) m) recv args
      = some (C code h₂ (.ref D) (if oF.getD false then .ref r :: args else args)) := by
  rw [delegateStatic, delegateStatic] at hdel
  subst hdel
  have hag : AgreeExcept h (delegateStaticKeys r D h (forInKeys h D)) r :=
    delegateStaticKeys_agree
  have hOwn : ownProp (delegateStaticKeys r D h (forInKeys h D)) r m
      = some (.wrapper (.fn code (some true) oF none) D r) :=
    delegateStaticKeys_install hchain hread hrs (AgreeExcept.refl h r) hmem
  have hgr := ownProp_getProp hOwn
  have hgd : getProp (delegateStaticKeys r D h (forInKeys h D)) (.ref D) m
      = .fn code (some true) oF none := by
    rw [getProp_ref_congr hag D m hchain, hread]
  rw [hgr, hgd]
  cases oF with
  | none => exact ⟨rfl, rfl⟩
  | some b => cases b with
    | false => exact ⟨rfl, rfl⟩
    | true => exact ⟨rfl, rfl⟩

theorem C2_static_delegation_call_witness :
    callValue wCode wsHeap2 (getProp wsHeap2 (.ref 2) "chg") (.ref 2) [.num 9]
      = callValue wCode wsHeap2 (getProp wsHeap2 (.ref 3) "chg") (.ref 3) [.ref 2, .num 9]
    ∧ callValue wCode wsHeap2 (getProp wsHeap2 (.ref 2) "chg") (.ref 2) [.num 9]
      = some (wCode 3 wsHeap2 (.ref 3) [.ref 2, .num 9]) :=
  C2_static_delegation_call wCode wsHeap wsHeap2 2 3 "chg" 3 (some true)
    (by decide) (by decide) (by decide) (by decide) (by decide) (.ref 2) [.num 9]

/-- C9: `delegate` only iterates the own property names of the donor's
immediate prototype, so a method name that is not an own property of that
prototype — for instance one defined only further up the chain — is never
installed on the recipient: the recipient's own property at that name is
exactly what it was before. -/
theorem C9_delegate_only_immediate_prototype (h h₂ : Heap) (r d p : Addr)
    (dobj po : Obj) (m : String)
    (hd : findObj h d = some dobj) (hproto : dobj.proto = some p)
    (hp : findObj h p = some po)
    (hnotown : getAssoc po.props m = none)
    (hdel : delegate h r [d] = some h₂) :
    ownProp h₂ r m = ownProp h r m := by
  rw [delegate] at hdel
  simp only [hd, hproto, hp] at hdel
  cases hkeys : delegateKeys r d h (po.props.map (fun e => e.1)) with
  | none => simp only [hkeys] at hdel; cases hdel
  | some h' =>
    simp only [hkeys, delegate] at hdel
    injection hdel with hdel
    subst hdel
    exact delegateKeys_ownProp_not_mem (getAssoc_eq_none_iff.1 hnotown) hkeys

theorem C9_delegate_only_immediate_prototype_witness :
    getProp w9Heap (.ref 1) "g" = .fn 9 (some true) none none
    ∧ ownProp (w9Heap) 2 "g" = ownProp w9Heap 2 "g" :=
  ⟨by decide,
   C9_delegate_only_immediate_prototype w9Heap w9Heap 2 1 0 wDonor w9Proto ("g")
     (by decide) (by decide) (by decide) (by decide) (by decide)⟩

/-- C4: donors are processed in the supplied list order, and a later donor's
marked member overwrites an earlier donor's member of the same name: when
both `d1` and `d2` carry a marked method `m` and the recipient binds
`[d1, d2]`, the recipient's own member `m` ends up as `d2`'s method bound to
`d2`, and calling it runs `d2`'s body with `this = d2` (last-writer-wins). -/
theorem C4_last_writer_wins (C : Code) (h h₂ : Heap) (r d1 d2 p1 p2 : Addr)
    (dobj1 po1 dobj2 po2 : Obj) (m : String) (c1 c2 : MethodId) (oF1 oF2 : Option Bool)
    (hd1 : findObj h d1 = some dobj1) (hproto1 : dobj1.proto = some p1)
    (hp1 : findObj h p1 = some po1)
    (hm1 : m ∈ po1.props.map (fun e => e.1))
    (hread1 : getProp h (.ref d1) m = .fn c1 (some true) oF1 none)
    (hd2 : findObj h d2 = some dobj2) (hproto2 : dobj2.proto = some p2)
    (hp2 : findObj h p2 = some po2)
    (hm2 : m ∈ po2.props.map (fun e => e.1))
    (hread2 : getProp h (.ref d2) m = .fn c2 (some true) oF2 none)
    (hrs : (findObj h r).isSome)
    (hchain2 : r ∉ chain h d2)
    (hdel : delegate h r [d1, d2] = some h₂)
    (recv : Value) (args : List Value) :
    ownProp h₂ r m = some (.fn c2 none none (some d2))
    ∧ callValue C h₂ (getProp h₂ (.ref r) m) recv args = some (C c2 h₂ (.ref d2) args) := by
  have hlen1 : 1 ≤ h.length := length_pos_of_findObj hd2
  have hd2mem : d2 ∈ chain h d2 := mem_chain_self hlen1
  have hrd2 : d2 ≠ r := fun hh => hchain2 (hh ▸ hd2mem)
  obtain ⟨orr, horr⟩ := Option.isSome_iff_exists.1 hrs
  have hlen2 : 2 ≤ h.length := length_two_of_findObj_two hd2 horr hrd2
  have hp2mem : p2 ∈ chain h d2 := mem_chain_proto hd2 hproto2 hlen2
  have hrp2 : p2 ≠ r := fun hh => hchain2 (hh ▸ hp2mem)
  rw [delegate] at hdel
  simp only [hd1, hproto1, hp1] at hdel
  cases hkeys1 : delegateKeys r d1 h (po1.props.map (fun e => e.1)) with
  | none => simp only [hkeys1] at hdel; cases hdel
  | some h' =>
    simp only [hkeys1] at hdel
    have hag1 : AgreeExcept h h' r := delegateKeys_agree hkeys1
    rw [delegate] at hdel
    simp only [hag1.2.2 d2 hrd2, hd2, hproto2, hag1.2.2 p2 hrp2, hp2] at hdel
    cases hkeys2 : delegateKeys r d2 h' (po2.props.map (fun e => e.1)) with
    | none => simp only [hkeys2] at hdel; cases hdel
    | some h'' =>
      simp only [hkeys2, delegate] at hdel
      injection hdel with hdel
      subst hdel
      have hOwn : ownProp h'' r m = some (.fn c2 none none (some d2)) :=
        delegateKeys_install hchain2 hread2 hrs hag1 hkeys2 hm2
      refine ⟨hOwn, ?_⟩
      rw [ownProp_getProp hOwn]
      rfl

theorem C4_last_writer_wins_witness :
    ownProp w4Heap2 2 "m" = some (.fn 12 none none (some 8))
    ∧ callValue wCode w4Heap2 (getProp w4Heap2 (.ref 2) "m") (.ref 2) []
        = some (wCode 12 w4Heap2 (.ref 8) []) :=
  C4_last_writer_wins wCode w4Heap w4Heap2 2 6 8 5 7 w4Donor1 w4Proto1 w4Donor2 w4Proto2
    "m" 11 12 none none
    (by decide) (by decide) (by decide) (by decide) (by decide) (by decide) (by decide)
    (by decide) (by decide) (by decide) (by decide) (by decide) (by decide) (.ref 2) []

/-- C10: members installed by the binders have their receiver fixed at bind
time: a method installed by `delegate` keeps running with `this` equal to
the donor instance whatever receiver the extracted function is called with,
and a wrapper installed by `delegateStatic` always invokes the donor's
static method with the donor class as receiver, whatever the call-site
receiver. -/
theorem C10_receiver_fixed_at_bind_time (C : Code) (h h₂ h₃ : Heap) (r d p D : Addr)
    (dobj po : Obj) (mi ms : String) (ci cs : MethodId) (oFi oFs : Option Bool)
    (hd : findObj h d = some dobj) (hproto : dobj.proto = some p)
    (hp : findObj h p = some po)
    (hmi : mi ∈ po.props.map (fun e => e.1))
    (hreadi : getProp h (.ref d) mi = .fn ci (some true) oFi none)
    (hrs : (findObj h r).isSome)
    (hchaini : r ∉ chain h d)
    (hdel : delegate h r [d] = some h₂)
    (hms : ms ∈ forInKeys h₂ D)
    (hreads : getProp h₂ (.ref D) ms = .fn cs (some true) oFs none)
    (hchains : r ∉ chain h₂ D)
    (hminot : mi ∉ forInKeys h₂ D)
    (hstat : delegateStatic h₂ r [D] = h₃)
    (recv recv2 : Value) (args args2 : List Value) :
    callValue C h₃ (getProp h₃ (.ref r) mi) recv args = some (C ci h₃ (.ref d) args)
    ∧ callValue C h₃ (getProp h₃ (.ref r) ms) recv2 args2
        = some (C cs h₃ (.ref D) (if oFs.getD false then .ref r :: args2 else args2)) := by
  rw [delegate] at hdel
  simp only [hd, hproto, hp] at hdel
  cases hkeys1 : delegateKeys r d h (po.props.map (fun e => e.1)) with
  | none => simp only [hkeys1] at hdel; cases hdel
  | some h₂' =>
    simp only [hkeys1, delegate] at hdel
    injection hdel with hdel
    subst hdel
    have hag1 : AgreeExcept h h₂' r := delegateKeys_agree hkeys1
    have hOwni : ownProp h₂' r mi = some (.fn ci none none (some d)) :=
      delegateKeys_install hchaini hreadi hrs (AgreeExcept.refl h r) hkeys1 hmi
    have hrs2 : (findObj h₂' r).isSome := by rw [hag1.2.1]; exact hrs
    rw [delegateStatic, delegateStatic] at hstat
    subst hstat
    have hOwni3 : ownProp (delegateStaticKeys r D h₂' (forInKeys h₂' D)) r mi
        = some (.fn ci none none (some d)) := by
      rw [delegateStaticKeys_ownProp_not_mem hminot]
      exact hOwni
    have hOwns : ownProp (delegateStaticKeys r D h₂' (forInKeys h₂' D)) r ms
        = some (.wrapper (.fn cs (some true) oFs none) D r) :=
      delegateStaticKeys_install hchains hreads hrs2 (AgreeExcept.refl h₂' r) hms
    rw [ownProp_getProp hOwni3, ownProp_getProp hOwns]
    refine ⟨rfl, ?_⟩
    cases oFs with
    | none => rfl
    | some b => cases b with
      | false => rfl
      | true => rfl

theorem C10_receiver_fixed_at_bind_time_witness :
    callValue wCode wAll3 (getProp wAll3 (.ref 2) "m") .undefined [.num 1]
      = some (wCode 7 wAll3 (.ref 1) [.num 1])
    ∧ callValue wCode wAll3 (getProp wAll3 (.ref 2) "chg") (.str ("other")) [.num 2]
      = some (wCode 3 wAll3 (.ref 3) [.ref 2, .num 2]) :=
  C10_receiver_fixed_at_bind_time wCode wAll wAll2 wAll3 2 1 0 3 wDonor wProto
    "m" "chg" 7 3 none (some true)
    (by decide) (by decide) (by decide) (by decide) (by decide) (by decide) (by decide)
    (by decide) (by decide) (by decide) (by decide) (by decide) (by decide)
    .undefined (.str ("other")) [.num 1] [.num 2]

/-! ## Unmarked members are never installed -/

/-- If the donor's member `k` does not read as a marked function, a
completing run of `delegate`'s inner loop leaves the recipient's own
property `k` untouched (non-function values with a truthy mark would make
`.bind` throw, contradicting completion). -/
theorem delegateKeys_skip_unmarked {h : Heap} {r c : Addr} {k : String}
    (hchain : r ∉ chain h c)
    (hunm : isMarkedFn (getProp h (.ref c) k) = false) :
    ∀ {ks : List String} {h₁ h₂ : Heap}, AgreeExcept h h₁ r →
      delegateKeys r c h₁ ks = some h₂ → ownProp h₂ r k = ownProp h₁ r k := by
  intro ks
  induction ks with
  | nil =>
    intro h₁ h₂ _ hrun
    rw [delegateKeys] at hrun
    injection hrun with hrun
    subst hrun
    rfl
  | cons k' ks ih =>
    intro h₁ h₂ hag hrun
    rw [delegateKeys] at hrun
    by_cases hk : k' = k
    · subst hk
      have hst : getProp h₁ (.ref c) k' = getProp h (.ref c) k' :=
        getProp_ref_congr hag c k' hchain
      rw [hst] at hrun
      cases hv : getProp h (.ref c) k' with
      | undefined => rw [hv] at hrun; simp [isDelegatedCheck] at hrun
      | fn code iD oF bnd =>
        rw [hv] at hrun
        rw [hv] at hunm
        have hiD : truthy (getProp h₁ (Value.fn code iD oF bnd) "isDelegated") = false := by
          cases iD with
          | none => rfl
          | some b =>
            simp only [isMarkedFn, Option.getD] at hunm
            simp [getProp, truthy, hunm]
        rw [show isDelegatedCheck h₁ (Value.fn code iD oF bnd)
            = some false from by simp [isDelegatedCheck, hiD]] at hrun
        exact ih hag hrun
      | wrapper v ca sa =>
        rw [hv] at hrun
        rw [show isDelegatedCheck h₁ (Value.wrapper v ca sa) = some false from rfl] at hrun
        exact ih hag hrun
      | bool b =>
        rw [hv] at hrun
        rw [show isDelegatedCheck h₁ (Value.bool b) = some false from rfl] at hrun
        exact ih hag hrun
      | num n =>
        rw [hv] at hrun
        rw [show isDelegatedCheck h₁ (Value.num n) = some false from rfl] at hrun
        exact ih hag hrun
      | str s =>
        rw [hv] at hrun
        rw [show isDelegatedCheck h₁ (Value.str s) = some false from rfl] at hrun
        exact ih hag hrun
      | ref a =>
        rw [hv] at hrun
        cases ht : truthy (getProp h₁ (.ref a) "isDelegated") with
        | false =>
          rw [show isDelegatedCheck h₁ (Value.ref a) = some false from by
            simp [isDelegatedCheck, ht]] at hrun
          exact ih hag hrun
        | true =>
          rw [show isDelegatedCheck h₁ (Value.ref a) = some true from by
            simp [isDelegatedCheck, ht]] at hrun
          rw [show bindFn (Value.ref a) c = none from rfl] at hrun
          cases hrun
    · cases hchk : isDelegatedCheck h₁ (getProp h₁ (.ref c) k') with
      | none => rw [hchk] at hrun; cases hrun
      | some b =>
        rw [hchk] at hrun
        cases b with
        | false => exact ih hag hrun
        | true =>
          cases hb : bindFn (getProp h₁ (.ref c) k') c with
          | none => rw [hb] at hrun; cases hrun
          | some bv =>
            rw [hb] at hrun
            have := ih (hag.trans (AgreeExcept.setProp h₁ r k' bv)) hrun
            rw [this]
            exact ownProp_setProp_ne_key h₁ r k' k bv (fun hh => hk hh.symm)

/-- Static counterpart: an unmarked member is skipped by `delegateStatic`'s
inner loop, leaving the recipient's own property `k` untouched. -/
theorem delegateStaticKeys_skip_unmarked {h : Heap} {r c : Addr} {k : String}
    (hchain : r ∉ chain h c)
    (hunm : isMarkedFn (getProp h (.ref c) k) = false) :
    ∀ {ks : List String} {h₁ : Heap}, AgreeExcept h h₁ r →
      ownProp (delegateStaticKeys r c h₁ ks) r k = ownProp h₁ r k := by
  intro ks
  induction ks with
  | nil => intro h₁ _; rfl
  | cons k' ks ih =>
    intro h₁ hag
    rw [delegateStaticKeys]
    by_cases hk : k' = k
    · subst hk
      have hst : getProp h₁ (.ref c) k' = getProp h (.ref c) k' :=
        getProp_ref_congr hag c k' hchain
      have hcond : (isFunctionV (getProp h₁ (.ref c) k')
          && truthy (getProp h₁ (getProp h₁ (.ref c) k') "isDelegated")) = false := by
        rw [hst]
        cases hv : getProp h (.ref c) k' with
        | fn code iD oF bnd =>
          rw [hv] at hunm
          cases iD with
          | none => rfl
          | some b =>
            simp only [isMarkedFn, Option.getD] at hunm
            simp [isFunctionV, getProp, truthy, hunm]
        | wrapper v ca sa => rfl
        | undefined => rfl
        | bool b => rfl
        | num n => rfl
        | str s => rfl
        | ref a => rfl
      simp only [hcond, Bool.false_eq_true, if_false]
      exact ih hag
    · by_cases hcond : (isFunctionV (getProp h₁ (.ref c) k')
          && truthy (getProp h₁ (getProp h₁ (.ref c) k') "isDelegated")) = true
      · simp only [hcond, if_true]
        rw [ih (hag.trans (AgreeExcept.setProp h₁ r k' _))]
        exact ownProp_setProp_ne_key h₁ r k' k _ (fun hh => hk hh.symm)
      · simp only [hcond, if_false]
        exact ih hag

/-- List-level version for `delegate`. -/
theorem delegate_unmarked_pres {h : Heap} {r : Addr} {k : String} :
    ∀ {cands : List Addr} {h₁ h₂ : Heap}, AgreeExcept h h₁ r →
      (∀ c ∈ cands, r ∉ chain h c) →
      (∀ c ∈ cands, isMarkedFn (getProp h (.ref c) k) = false) →
      delegate h₁ r cands = some h₂ → ownProp h₂ r k = ownProp h₁ r k := by
  intro cands
  induction cands with
  | nil =>
    intro h₁ h₂ _ _ _ hrun
    rw [delegate] at hrun
    injection hrun with hrun
    subst hrun
    rfl
  | cons c cs ih =>
    intro h₁ h₂ hag hchain hunm hrun
    rw [delegate] at hrun
    cases hfc : findObj h₁ c with
    | none => rw [hfc] at hrun; cases hrun
    | some o =>
      simp only [hfc] at hrun
      cases hpr : o.proto with
      | none => simp only [hpr] at hrun; cases hrun
      | some p =>
        simp only [hpr] at hrun
        cases hfp : findObj h₁ p with
        | none => simp only [hfp] at hrun; cases hrun
        | some po =>
          simp only [hfp] at hrun
          cases hkeys : delegateKeys r c h₁ (po.props.map (fun e => e.1)) with
          | none => simp only [hkeys] at hrun; cases hrun
          | some h' =>
            simp only [hkeys] at hrun
            have hstep : ownProp h' r k = ownProp h₁ r k :=
              delegateKeys_skip_unmarked (hchain c (List.mem_cons_self _ _))
                (hunm c (List.mem_cons_self _ _)) hag hkeys
            have hrest : ownProp h₂ r k = ownProp h' r k :=
              ih (hag.trans (delegateKeys_agree hkeys))
                (fun c' hc' => hchain c' (List.mem_cons_of_mem _ hc'))
                (fun c' hc' => hunm c' (List.mem_cons_of_mem _ hc')) hrun
            rw [hrest, hstep]

/-- List-level version for `delegateStatic`. -/
theorem delegateStatic_unmarked_pres {h : Heap} {r : Addr} {k : String} :
    ∀ {cands : List Addr} {h₁ : Heap}, AgreeExcept h h₁ r →
      (∀ c ∈ cands, r ∉ chain h c) →
      (∀ c ∈ cands, isMarkedFn (getProp h (.ref c) k) = false) →
      ownProp (delegateStatic h₁ r cands) r k = ownProp h₁ r k := by
  intro cands
  induction cands with
  | nil => intro h₁ _ _ _; rfl
  | cons c cs ih =>
    intro h₁ hag hchain hunm
    rw [delegateStatic]
    have hstep : ownProp (delegateStaticKeys r c h₁ (forInKeys h₁ c)) r k
        = ownProp h₁ r k :=
      delegateStaticKeys_skip_unmarked (hchain c (List.mem_cons_self _ _))
        (hunm c (List.mem_cons_self _ _)) hag
    have hrest := ih (hag.trans (@delegateStaticKeys_agree r c (forInKeys h₁ c) h₁))
      (fun c' hc' => hchain c' (List.mem_cons_of_mem _ hc'))
      (fun c' hc' => hunm c' (List.mem_cons_of_mem _ hc'))
    rw [hrest, hstep]

/-- C5: after `delegate` or `delegateStatic` completes, every own-member the
binder installed on the recipient corresponds to a donor member that reads
as a function carrying the delegation mark: at any name `k` where no donor
in the list has a marked member, the recipient's own property is exactly
what it was before the call — an unmarked donor member never appears as an
own-member of the recipient. -/
theorem C5_only_marked_members_installed (h h₂ : Heap) (r : Addr)
    (cands : List Addr) (k : String)
    (hchain : ∀ c ∈ cands, r ∉ chain h c)
    (hunm : ∀ c ∈ cands, isMarkedFn (getProp h (.ref c) k) = false)
    (hdel : delegate h r cands = some h₂) :
    ownProp h₂ r k = ownProp h r k
    ∧ ownProp (delegateStatic h r cands) r k = ownProp h r k :=
  ⟨delegate_unmarked_pres (AgreeExcept.refl h r) hchain hunm hdel,
   delegateStatic_unmarked_pres (AgreeExcept.refl h r) hchain hunm⟩

theorem C5_only_marked_members_installed_witness :
    ownProp w5Heap2 2 "plain" = ownProp w5Heap 2 "plain"
    ∧ ownProp (delegateStatic w5Heap 2 [1]) 2 "plain" = ownProp w5Heap 2 "plain" :=
  C5_only_marked_members_installed w5Heap w5Heap2 2 [1] "plain"
    (by decide) (by decide) (by decide)

/-! ## No-op runs -/

theorem delegateKeys_all_skip {h : Heap} {r c : Addr} :
    ∀ {ks : List String},
      (∀ k ∈ ks, isDelegatedCheck h (getProp h (.ref c) k) = some false) →
      delegateKeys r c h ks = some h := by
  intro ks
  induction ks with
  | nil => intro _; rfl
  | cons k ks ih =>
    intro hskip
    rw [delegateKeys, hskip k (List.mem_cons_self _ _)]
    exact ih (fun k' hk' => hskip k' (List.mem_cons_of_mem _ hk'))

theorem delegateStaticKeys_all_skip {h : Heap} {r c : Addr} :
    ∀ {ks : List String},
      (∀ k ∈ ks, (isFunctionV (getProp h (.ref c) k)
        && truthy (getProp h (getProp h (.ref c) k) "isDelegated")) = false) →
      delegateStaticKeys r c h ks = h := by
  intro ks
  induction ks with
  | nil => intro _; rfl
  | cons k ks ih =>
    intro hskip
    rw [delegateStaticKeys]
    simp only [hskip k (List.mem_cons_self _ _), Bool.false_eq_true, if_false]
    exact ih (fun k' hk' => hskip k' (List.mem_cons_of_mem _ hk'))

/-- C6 counterexample: the claim says binding a donor with no marked members
always completes normally, but `delegate` evaluates
`candidate[key].isDelegated`, which throws a `TypeError` when the member
reads as `undefined`.  The donor below has exactly one (inherited,
unmarked) member `p` whose value is `undefined`: `delegate` raises (returns
`none`) instead of completing. -/
theorem C6_counterexample :
    forInKeys cxHeap 1 = ["p"]
    ∧ isMarkedFn (getProp cxHeap (.ref 1) "p") = false
    ∧ delegate cxHeap 2 [1] = none := by decide

/-- C6 (amended): binding an empty donor list raises no error and leaves
the heap — in particular the recipient — unchanged, for both binders; and
binding a donor none of whose enumerated members passes the delegation-mark
test completes normally and leaves the heap unchanged, provided each member
lookup made by `delegate` evaluates without throwing (i.e. the
`isDelegated` check itself yields a defined, falsy answer — a donor member
that reads as `undefined` instead makes `delegate` throw, see the
counterexample).  `delegateStatic` never raises. -/
theorem C6_noop_amended (h : Heap) (r d p : Addr) (dobj po : Obj)
    (hd : findObj h d = some dobj) (hproto : dobj.proto = some p)
    (hp : findObj h p = some po)
    (hskip : ∀ k ∈ po.props.map (fun e => e.1),
      isDelegatedCheck h (getProp h (.ref d) k) = some false)
    (hskipS : ∀ k ∈ forInKeys h d, (isFunctionV (getProp h (.ref d) k)
      && truthy (getProp h (getProp h (.ref d) k) "isDelegated")) = false) :
    delegate h r [] = some h ∧ delegateStatic h r [] = h
    ∧ delegate h r [d] = some h ∧ delegateStatic h r [d] = h := by
  refine ⟨rfl, rfl, ?_, ?_⟩
  · rw [delegate]
    simp only [hd, hproto, hp, delegateKeys_all_skip hskip, delegate]
  · rw [delegateStatic, delegateStaticKeys_all_skip hskipS, delegateStatic]

theorem C6_noop_amended_witness :
    delegate w6Heap 2 [] = some w6Heap ∧ delegateStatic w6Heap 2 [] = w6Heap
    ∧ delegate w6Heap 2 [1] = some w6Heap ∧ delegateStatic w6Heap 2 [1] = w6Heap :=
  C6_noop_amended w6Heap 2 1 0 wDonor w6Proto
    (by decide) (by decide) (by decide) (by decide) (by decide)

/-- C7 counterexample: the claim says a marked static member that is not an
own member of the donor class is never installed, but `delegateStatic`
enumerates with `for ... in`, which walks the prototype chain: the donor
class at address 1 has no own member `m`, only its superclass (address 0)
does, yet after `delegateStatic` the recipient owns an installed wrapper
for `m`. -/
theorem C7_counterexample :
    ownProp c7Heap 1 "m" = none
    ∧ getProp c7Heap (.ref 1) "m" = .fn 5 (some true) (some false) none
    ∧ ownProp (delegateStatic c7Heap 2 [1]) 2 "m"
        = some (.wrapper (.fn 5 (some true) (some false) none) 1 2) := by decide

/-- C7 (amended): `delegateStatic` enumerates the donor's enumerable
members with `for ... in`, which includes inherited ones: a marked static
method that is *not* an own member of the donor class but is visible
through its prototype chain IS installed on the recipient as a wrapper
bound to that donor class. -/
theorem C7_amended_inherited_statics_installed (h h₂ : Heap) (r D : Addr) (Dobj : Obj)
    (m : String) (code : MethodId) (oF : Option Bool)
    (hD : findObj h D = some Dobj)
    (hnotown : getAssoc Dobj.props m = none)
    (hmem : m ∈ forInKeys h D)
    (hread : getProp h (.ref D) m = .fn code (some true) oF none)
    (hrs : (findObj h r).isSome)
    (hchain : r ∉ chain h D)
    (hstat : delegateStatic h r [D] = h₂) :
    ownProp h₂ r m = some (.wrapper (.fn code (some true) oF none) D r) := by
  rw [delegateStatic, delegateStatic] at hstat
  subst hstat
  exact delegateStaticKeys_install hchain hread hrs (AgreeExcept.refl h r) hmem

theorem C7_amended_inherited_statics_installed_witness :
    ownProp c7Heap2 2 "m" = some (.wrapper (.fn 5 (some true) (some false) none) 1 2) :=
  C7_amended_inherited_statics_installed c7Heap c7Heap2 2 1 c7Sub ("m") 5 (some false)
    (by decide) (by decide) (by decide) (by decide) (by decide) (by decide) (by decide)

/-- C8 counterexample: the claim says marking stores the delegation mark
out-of-band and leaves the member's externally observable state unchanged,
but `DelegateMethod` sets `isDelegated` directly on the function object: an
externally observable property of the function changes from `undefined` to
`true`. -/
theorem C8_counterexample :
    getProp ([] : Heap) (DelegateMethod false (.fn 0 none none none)) "isDelegated"
      = .bool true
    ∧ getProp ([] : Heap) (.fn 0 none none none) "isDelegated" = .undefined := by decide

/-- C8 (amended): `DelegateMethod` stores the mark in-band, by setting the
`isDelegated` and `omitFirst` properties directly on the method's function
object; the function's call behavior is unchanged for every receiver and
argument list, and every property other than `isDelegated` and `omitFirst`
reads exactly as before. -/
theorem C8_mark_effect_amended (C : Code) (h : Heap) (code : MethodId)
    (iD oF : Option Bool) (bnd : Option Addr) (oF' : Bool)
    (thisV : Value) (args : List Value) (k : String)
    (hk1 : k ≠ "isDelegated") (hk2 : k ≠ "omitFirst") :
    callValue C h (DelegateMethod oF' (.fn code iD oF bnd)) thisV args
      = callValue C h (.fn code iD oF bnd) thisV args
    ∧ getProp h (DelegateMethod oF' (.fn code iD oF bnd)) k
      = getProp h (.fn code iD oF bnd) k
    ∧ getProp h (DelegateMethod oF' (.fn code iD oF bnd)) "isDelegated" = .bool true
    ∧ getProp h (DelegateMethod oF' (.fn code iD oF bnd)) "omitFirst" = .bool oF' := by
  refine ⟨?_, ?_, ?_, ?_⟩
  · cases bnd with
    | none => rfl
    | some a => rfl
  · simp [DelegateMethod, getProp, hk1, hk2]
  · simp [DelegateMethod, getProp]
  · simp [DelegateMethod, getProp]

theorem C8_mark_effect_amended_witness :
    callValue wCode wHeap (DelegateMethod true (.fn 0 none none none)) .undefined []
      = callValue wCode wHeap (.fn 0 none none none) .undefined []
    ∧ getProp wHeap (DelegateMethod true (.fn 0 none none none)) "length"
      = getProp wHeap (.fn 0 none none none) "length"
    ∧ getProp wHeap (DelegateMethod true (.fn 0 none none none)) "isDelegated" = .bool true
    ∧ getProp wHeap (DelegateMethod true (.fn 0 none none none)) "omitFirst" = .bool true :=
  C8_mark_effect_amended wCode wHeap 0 none none none true .undefined [] "length"
    (by decide) (by decide)

/-- C3 (spec-modelled: `DelegateField` and the field-accessor installation
are documented in the repository's README but absent from src/, so the
accessor pair is modelled from spec §4.2): for a field marked with the
default mode (`allowGet = true`, `allowSet = true`), assigning through the
recipient's accessor and then reading through it yields the assigned value,
and the donor's own stored value for that field becomes that value. -/
theorem C3_field_roundtrip (h : Heap) (d : Addr) (o : Obj) (k : String) (v : Value)
    (hd : findObj h d = some o) :
    fieldRead (fieldWrite h ⟨true, true⟩ d k v) ⟨true, true⟩ d k = v
    ∧ ownProp (fieldWrite h ⟨true, true⟩ d k v) d k = some v := by
  have hOwn : ownProp (setProp h d k v) d k = some v := ownProp_setProp_eq h d k v o hd
  exact ⟨ownProp_getProp hOwn, hOwn⟩

theorem C3_field_roundtrip_witness :
    fieldRead (fieldWrite wHeap ⟨true, true⟩ 1 "f" (.num 42)) ⟨true, true⟩ 1 "f" = .num 42
    ∧ ownProp (fieldWrite wHeap ⟨true, true⟩ 1 "f" (.num 42)) 1 "f" = some (.num 42) :=
  C3_field_roundtrip wHeap 1 wDonor ("f") (.num 42) (by decide)

end TsDelegate
